import Mathlib

/-
  Shallow embedding of the price-extraction subsystem of the
  LangGraph-Gold-Egypt repository (src/utils.py and src/scraper.py).

  Strings are modelled as `List Char`.  Python floats are modelled as
  exact rationals (ℚ): every numeric string the pipeline parses is a
  finite decimal, so the rational model agrees with the float model on
  all values and comparisons used by the code.

  Python's regex classes are modelled as follows:
  - \d  : ASCII digits plus Arabic-Indic digits U+0660..U+0669 (the only
          digit scripts occurring in this domain; the pipeline translates
          Arabic-Indic digits to ASCII before matching);
  - \s  : space, tab, newline, carriage return, vertical tab, form feed
          and NBSP (the whitespace characters that can occur here);
  - \w  : ASCII alphanumerics, underscore, and the Arabic block
          U+0600..U+06FF (approximation used only for the \b checks of
          the date patterns).
-/

namespace GoldEgypt

/- ===== Character classes ===== -/

def isAsciiDigit (c : Char) : Bool := '0' ≤ c && c ≤ '9'

def isArabicIndicDigit (c : Char) : Bool := '٠' ≤ c && c ≤ '٩'

def isDigitB (c : Char) : Bool := isAsciiDigit c || isArabicIndicDigit c

def isPyWs (c : Char) : Bool :=
  c = ' ' || c = '\t' || c = '\n' || c = '\r' ||
  c = '\x0b' || c = '\x0c' || c = '\xa0'

def asciiLower (c : Char) : Char :=
  if 'A' ≤ c && c ≤ 'Z' then Char.ofNat (c.toNat + 32) else c

def pyWordChar (c : Char) : Bool :=
  isDigitB c || (('a' ≤ c && c ≤ 'z') || ('A' ≤ c && c ≤ 'Z')) ||
  c = '_' || ('؀' ≤ c && c ≤ 'ۿ')

/- Python substring test: `needle in hay`. -/
def containsL (hay needle : List Char) : Bool :=
  hay.tails.any (fun t => needle.isPrefixOf t)

/- Python str.strip(): drop leading and trailing whitespace. -/
def pythonStrip (l : List Char) : List Char :=
  ((l.dropWhile isPyWs).reverse.dropWhile isPyWs).reverse

/- ===== utils.py ===== -/

/- str.translate(_ARABIC_DIGITS): Arabic-Indic digit to Western digit. -/
def arDigitToWestern (c : Char) : Char :=
  if isArabicIndicDigit c then Char.ofNat (c.toNat - 0x660 + 48) else c

def toWesternDigits (l : List Char) : List Char := l.map arDigitToWestern

/-
  _standardize_separators: translate digits, NBSP to space, Arabic
  decimal U+066B to '.', drop Arabic thousands U+066C, remove all
  whitespace, then disambiguate ',' vs '.'.
-/
def standardize_separators (l : List Char) : List Char :=
  let a := toWesternDigits l
  let b := a.map (fun c => if c = '\xa0' then ' ' else c)
  let c := b.map (fun ch => if ch = '٫' then '.' else ch)
  let d := c.filter (fun ch => ch ≠ '٬')
  let e := d.filter (fun ch => !(isPyWs ch))
  if e.contains ',' && e.contains '.' then
    e.filter (fun ch => ch ≠ ',')
  else if e.contains ',' then
    e.map (fun ch => if ch = ',' then '.' else ch)
  else e

def natFromDigits (l : List Char) : Nat :=
  l.foldl (fun a c => a * 10 + (c.toNat - 48)) 0

/-
  Python float(s) on the cleaned strings this code produces:
  optional sign, decimal digits with at most one '.', optional exponent.
  (inf/nan/underscore forms never arise from this pipeline's inputs.)
-/
def to_float (l : List Char) : Option ℚ :=
  let signAndRest : Int × List Char :=
    match l with
    | c :: r => if c = '+' then (1, r) else if c = '-' then (-1, r) else (1, c :: r)
    | [] => (1, [])
  let sgn := signAndRest.1
  let l1 := signAndRest.2
  let ip := l1.takeWhile isAsciiDigit
  let r1 := l1.dropWhile isAsciiDigit
  let fracAndRest : List Char × List Char :=
    match r1 with
    | c :: r =>
      if c = '.' then (r.takeWhile isAsciiDigit, r.dropWhile isAsciiDigit)
      else ([], c :: r)
    | [] => ([], [])
  let fp := fracAndRest.1
  let r2 := fracAndRest.2
  if ip = [] && fp = [] then none
  else
    let mant : Int := sgn * (natFromDigits (ip ++ fp) : Int)
    let fden : Nat := 10 ^ fp.length
    match r2 with
    | [] => some (mkRat mant fden)
    | c :: r3 =>
      if c = 'e' || c = 'E' then
        let esignAndRest : Bool × List Char :=
          match r3 with
          | c2 :: r4 =>
            if c2 = '+' then (true, r4)
            else if c2 = '-' then (false, r4)
            else (true, c2 :: r4)
          | [] => (true, [])
        let ed := esignAndRest.2.takeWhile isAsciiDigit
        if ed = [] || esignAndRest.2.dropWhile isAsciiDigit ≠ [] then none
        else if esignAndRest.1 then
          some (mkRat (mant * (10 : Int) ^ natFromDigits ed) fden)
        else some (mkRat mant (fden * 10 ^ natFromDigits ed))
      else none

/- _NUM_TOKEN character class: [\d\s.,٫٬]. -/
def numTokenClass (c : Char) : Bool :=
  isDigitB c || isPyWs c || c = '.' || c = ',' || c = '٫' || c = '٬'

/- Anchored attempt of _NUM_TOKEN = [+-]?\d[\d\s.,٫٬]*. -/
def numTokenAt : List Char → Option (List Char)
  | '+' :: c :: r =>
    if isDigitB c then some ('+' :: c :: r.takeWhile numTokenClass) else none
  | '-' :: c :: r =>
    if isDigitB c then some ('-' :: c :: r.takeWhile numTokenClass) else none
  | c :: r =>
    if isDigitB c then some (c :: r.takeWhile numTokenClass) else none
  | [] => none

/- re.search(_NUM_TOKEN, text): leftmost match. -/
def numTokenSearch : List Char → Option (List Char)
  | [] => none
  | c :: r =>
    match numTokenAt (c :: r) with
    | some t => some t
    | none => numTokenSearch r

/-
  normalize_number: empty guard; clean the stripped text and parse;
  on failure extract the first numeric token from the raw text,
  clean it and parse.
-/
def normalize_number (l : List Char) : Option ℚ :=
  if l = [] then none
  else
    match to_float (standardize_separators (pythonStrip l)) with
    | some v => some v
    | none =>
      match numTokenSearch l with
      | none => none
      | some tok => to_float (standardize_separators tok)

def normalize_number_str (s : String) : Option ℚ := normalize_number s.toList

/- ===== scraper.py : helpers ===== -/

def looks_like_year (q : ℚ) : Bool :=
  decide ((1900 : ℚ) ≤ q) && decide (q ≤ (2100 : ℚ)) && (q.den == 1)

def has_gold_context (l : List Char) : Bool :=
  containsL l "ذهب".toList || containsL l "جرام".toList ||
  containsL l "عيار".toList || containsL l "ذهبية".toList ||
  containsL l "سعر".toList

/- ===== scraper.py : regex matchers =====

  Each Python regex is embedded as an anchored matcher (attempt a match
  at the head of the list, returning the captured data and the suffix
  after the match) together with a scanner replicating re.finditer:
  try each start position from the left, and continue after the end of
  every match found.  Greedy repetition and alternation are resolved
  exactly as Python's backtracking engine resolves them, which for
  these patterns means: maximal runs for the character-class stars
  whose successor cannot overlap the class, and explicit descending
  search where genuine backtracking can occur (the \D\x7b0,8\x7d gap and the
  greedy numeric group of the price-then-karat and currency patterns).
-/

/- Character class of the numeric capture group [\d.,\s]. -/
def numTailClass (c : Char) : Bool :=
  isDigitB c || c = '.' || c = ',' || isPyWs c

/- Alternation (18|21|24), anchored. -/
def karatAltAt (l : List Char) : Option (Nat × List Char) :=
  if ['1', '8'].isPrefixOf l then some (18, l.drop 2)
  else if ['2', '1'].isPrefixOf l then some (21, l.drop 2)
  else if ['2', '4'].isPrefixOf l then some (24, l.drop 2)
  else none

/- PAT_KARAT_THEN_PRICE: عيار\s*(18|21|24)\D\x7b0,8\x7d(\d[\d.,\s]*), anchored.
   Returns ((karat, price group), suffix after the match). -/
def ktpMatchAt (l : List Char) : Option ((Nat × List Char) × List Char) :=
  if ("عيار".toList).isPrefixOf l then
    let l1 := (l.drop 4).dropWhile isPyWs
    match karatAltAt l1 with
    | none => none
    | some (k, l2) =>
      let gap := l2.takeWhile (fun c => !(isDigitB c))
      if gap.length ≤ 8 then
        match l2.drop gap.length with
        | [] => none
        | d :: r =>
          some ((k, (d :: r).takeWhile numTailClass),
                (d :: r).dropWhile numTailClass)
      else none
  else none

/- The \D\x7b0,8\x7dعيار\s*(18|21|24) part of PAT_PRICE_THEN_KARAT, tried with
   the gap length j descending from 8 (greedy). -/
def ptkBridgeAt (pos : List Char) (j : Nat) : Option (Nat × List Char) :=
  if j ≤ pos.length && (pos.take j).all (fun c => !(isDigitB c)) then
    let q := pos.drop j
    if ("عيار".toList).isPrefixOf q then
      karatAltAt ((q.drop 4).dropWhile isPyWs)
    else none
  else none

def ptkBridge (pos : List Char) : Nat → Option (Nat × List Char)
  | 0 => ptkBridgeAt pos 0
  | j + 1 =>
    match ptkBridgeAt pos (j + 1) with
    | some x => some x
    | none => ptkBridge pos j

/- PAT_PRICE_THEN_KARAT: (\d[\d.,\s]*)\D\x7b0,8\x7dعيار\s*(18|21|24), anchored at
   the digit d; the greedy numeric group keeps t characters of the
   maximal class run, t descending.  Returns ((price group, karat),
   suffix). -/
def ptkTryT (d : Char) (rest : List Char) :
    Nat → Option ((List Char × Nat) × List Char)
  | 0 =>
    match ptkBridge rest 8 with
    | some (k, rem) => some (([d], k), rem)
    | none => none
  | t + 1 =>
    match ptkBridge (rest.drop (t + 1)) 8 with
    | some (k, rem) => some ((d :: rest.take (t + 1), k), rem)
    | none => ptkTryT d rest t

def ptkMatchAt : List Char → Option ((List Char × Nat) × List Char)
  | [] => none
  | d :: rest =>
    if isDigitB d then ptkTryT d rest (rest.takeWhile numTailClass).length
    else none

/- The currency alternation جنيه(\s*مصري)?|ج\.م|EGP (IGNORECASE),
   anchored.  Returns (matched spelling, suffix). -/
def currencyAt (q : List Char) : Option (List Char × List Char) :=
  if ("جنيه".toList).isPrefixOf q then
    let q1 := q.drop 4
    let w := q1.takeWhile isPyWs
    if ("مصري".toList).isPrefixOf (q1.drop w.length) then
      some ("جنيه".toList ++ w ++ "مصري".toList, (q1.drop w.length).drop 4)
    else some ("جنيه".toList, q1)
  else if ("ج.م".toList).isPrefixOf q then some ("ج.م".toList, q.drop 3)
  else
    match q with
    | c1 :: c2 :: c3 :: r =>
      if asciiLower c1 = 'e' && asciiLower c2 = 'g' && asciiLower c3 = 'p' then
        some ([c1, c2, c3], r)
      else none
    | _ => none

/- One attempt of PAT_PRICE_CURR at a fixed numeric-group length t.
   curr is computed as in the source: the whole match minus the numeric
   group, stripped. -/
def pcAttempt (d : Char) (rest : List Char) (t : Nat) :
    Option ((List Char × List Char) × List Char) :=
  let pos := rest.drop t
  let sep := pos.takeWhile isPyWs
  match currencyAt (pos.drop sep.length) with
  | some (mt, rem) =>
    some ((d :: rest.take t, pythonStrip (sep ++ mt)), rem)
  | none => none

def pcTryT (d : Char) (rest : List Char) :
    Nat → Option ((List Char × List Char) × List Char)
  | 0 => pcAttempt d rest 0
  | t + 1 =>
    match pcAttempt d rest (t + 1) with
    | some x => some x
    | none => pcTryT d rest t

/- PAT_PRICE_CURR: (\d[\d.,\s]*)\s*(currency), anchored at the digit.
   Returns ((price group, stripped currency), suffix). -/
def pcMatchAt : List Char → Option ((List Char × List Char) × List Char)
  | [] => none
  | d :: rest =>
    if isDigitB d then pcTryT d rest (rest.takeWhile numTailClass).length
    else none

/- (?:ل|)جرام of PAT_GRAM_21_24, anchored. -/
def g21Gram (q : List Char) : Option (List Char) :=
  match q with
  | 'ل' :: q1 =>
    if ("جرام".toList).isPrefixOf q1 then some (q.drop 5)
    else if ("جرام".toList).isPrefixOf q then some (q.drop 4)
    else none
  | _ => if ("جرام".toList).isPrefixOf q then some (q.drop 4) else none

/- \s*(?:عيار\s*)?(?:21|24) of PAT_GRAM_21_24, anchored. -/
def g21Tail (q1 : List Char) : Option (List Char) :=
  let q2 := q1.dropWhile isPyWs
  if ("عيار".toList).isPrefixOf q2 then
    let q4 := (q2.drop 4).dropWhile isPyWs
    if ['2', '1'].isPrefixOf q4 || ['2', '4'].isPrefixOf q4 then
      some (q4.drop 2)
    else none
  else if ['2', '1'].isPrefixOf q2 || ['2', '4'].isPrefixOf q2 then
    some (q2.drop 2)
  else none

/- One attempt of PAT_GRAM_21_24 at a fixed numeric-group length t.
   Returns ((price group, whole match), suffix); the whole match is
   needed because the source infers the karat from substring tests on
   m.group(0). -/
def g21Attempt (all : List Char) (d : Char) (rest : List Char) (t : Nat) :
    Option ((List Char × List Char) × List Char) :=
  let q := (rest.drop t).dropWhile isPyWs
  match g21Gram q with
  | none => none
  | some q1 =>
    match g21Tail q1 with
    | none => none
    | some rem =>
      some ((d :: rest.take t, all.take (all.length - rem.length)), rem)

def g21TryT (all : List Char) (d : Char) (rest : List Char) :
    Nat → Option ((List Char × List Char) × List Char)
  | 0 => g21Attempt all d rest 0
  | t + 1 =>
    match g21Attempt all d rest (t + 1) with
    | some x => some x
    | none => g21TryT all d rest t

/- PAT_GRAM_21_24: (\d[\d.,\s]*)\s*(?:ل|)جرام\s*(?:عيار\s*)?(?:21|24),
   anchored at the digit. -/
def g21MatchAt : List Char → Option ((List Char × List Char) × List Char)
  | [] => none
  | d :: rest =>
    if isDigitB d then
      g21TryT (d :: rest) d rest (rest.takeWhile numTailClass).length
    else none

/- re.finditer: scan start positions left to right, continue after each
   match; fuel bounds the recursion (every match consumes at least one
   character, so l.length steps suffice). -/
def scanWith (matchAt : List Char → Option (α × List Char)) :
    Nat → List Char → List α
  | 0, _ => []
  | _ + 1, [] => []
  | fuel + 1, c :: rest =>
    match matchAt (c :: rest) with
    | some (m, remaining) => m :: scanWith matchAt fuel remaining
    | none => scanWith matchAt fuel rest

def findKTP (l : List Char) : List (Nat × List Char) :=
  scanWith ktpMatchAt l.length l

def findPTK (l : List Char) : List (List Char × Nat) :=
  scanWith ptkMatchAt l.length l

def findPC (l : List Char) : List (List Char × List Char) :=
  scanWith pcMatchAt l.length l

def findG21 (l : List Char) : List (List Char × List Char) :=
  scanWith g21MatchAt l.length l

/- ===== scraper.py : _heuristic_price_parse ===== -/

/- A candidate tuple (price, currency, karat or None). -/
abbrev Cand := ℚ × List Char × Option Nat

/- The loop-body guard shared by all three tiers:
   `if num is None or _looks_like_year(num): continue` followed by
   `out.append(...)`. -/
def yearGuard (mk : ℚ → Cand) (x : Option ℚ) : Option Cand :=
  match x with
  | none => none
  | some q => if looks_like_year q then none else some (mk q)

/- Tier 1: karat-anchored matches, karat-then-price occurrences first,
   then price-then-karat, each guarded against unparsable and year-like
   numbers. -/
def tier1 (text : List Char) : List Cand :=
  ((findKTP text).filterMap (fun m =>
    yearGuard (fun q => (q, "جنيه".toList, some m.1)) (normalize_number m.2))) ++
  ((findPTK text).filterMap (fun m =>
    yearGuard (fun q => (q, "جنيه".toList, some m.2)) (normalize_number m.1)))

/- Tier 2: number-then-currency, requiring gold context in the block. -/
def tier2 (text : List Char) : List Cand :=
  (findPC text).filterMap (fun m =>
    if !(has_gold_context text) then none
    else yearGuard (fun q => (q, m.2, none)) (normalize_number m.1))

/- Tier 3: number near جرام; karat inferred from substring checks on
   the whole matched text m.group(0). -/
def tier3 (text : List Char) : List Cand :=
  (findG21 text).filterMap (fun m =>
    yearGuard
      (fun q => (q, "جنيه".toList,
        if containsL m.2 ['2', '1'] then some 21
        else if containsL m.2 ['2', '4'] then some 24
        else none))
      (normalize_number m.1))

def heuristic_price_parse (text : List Char) : List Cand :=
  let t1 := tier1 text
  if t1 = [] then
    let t2 := tier2 text
    if t2 = [] then tier3 text else t2
  else t1

/- ===== scraper.py : _score_snippet ===== -/

def score_snippet (l : List Char) : Int :=
  let s0 : Int := 0
  let s1 := if containsL l "جرام".toList then s0 + 2 else s0
  let s2 :=
    if containsL l "عيار 21".toList || containsL l "عيار21".toList then s1 + 2
    else s1
  let s3 :=
    if containsL l "عيار 24".toList || containsL l "عيار24".toList then s2 + 1
    else s2
  let s4 := if containsL l "سعر".toList then s3 + 1 else s3
  let s5 :=
    if containsL (l.map asciiLower) "price".toList then s4 + 1 else s4
  if containsL l ['|'] || containsL l ['\t'] then s5 + 1 else s5

/- ===== scraper.py : _maybe_find_date ===== -/

/- \b(20\d\x7b2\x7d-\d\x7b2\x7d-\d\x7b2\x7d)\b, anchored (the leading word boundary is
   checked by the scanner). -/
def date1At (l : List Char) : Option (List Char) :=
  match l with
  | '2' :: '0' :: d1 :: d2 :: '-' :: d3 :: d4 :: '-' :: d5 :: d6 :: rest =>
    if isDigitB d1 && isDigitB d2 && isDigitB d3 && isDigitB d4 &&
       isDigitB d5 && isDigitB d6 then
      match rest with
      | [] => some ['2', '0', d1, d2, '-', d3, d4, '-', d5, d6]
      | c :: _ =>
        if pyWordChar c then none
        else some ['2', '0', d1, d2, '-', d3, d4, '-', d5, d6]
    else none
  | _ => none

/- \d\x7b1,2\x7d followed by a separator, greedy. -/
def dd (sep : Char) : List Char → Option (List Char × List Char)
  | a :: b :: c :: r =>
    if isDigitB a && isDigitB b && c = sep then some ([a, b], r)
    else if isDigitB a && b = sep then some ([a], c :: r)
    else none
  | [a, b] => if isDigitB a && b = sep then some ([a], []) else none
  | _ => none

/- \b(\d\x7b1,2\x7dS\d\x7b1,2\x7dS20\d\x7b2\x7d)\b for separator S, anchored. -/
def dateSlashAt (sep : Char) (l : List Char) : Option (List Char) :=
  match dd sep l with
  | none => none
  | some (g1, r1) =>
    match dd sep r1 with
    | none => none
    | some (g2, r2) =>
      match r2 with
      | '2' :: '0' :: e1 :: e2 :: rest =>
        if isDigitB e1 && isDigitB e2 then
          let g := g1 ++ [sep] ++ g2 ++ [sep, '2', '0', e1, e2]
          match rest with
          | [] => some g
          | c :: _ => if pyWordChar c then none else some g
        else none
      | _ => none

/- re.search with a leading word-boundary: the first pattern character
   is always a digit, so the boundary holds exactly when the previous
   character is absent or not a word character. -/
def searchWithPrev (matchAt : List Char → Option (List Char)) :
    Option Char → List Char → Option (List Char)
  | _, [] => none
  | prev, c :: r =>
    let leftOk :=
      match prev with
      | none => true
      | some p => !(pyWordChar p)
    match (if leftOk then matchAt (c :: r) else none) with
    | some g => some g
    | none => searchWithPrev matchAt (some c) r

def maybe_find_date (l : List Char) : Option (List Char) :=
  match searchWithPrev date1At none l with
  | some g => some g
  | none =>
    match searchWithPrev (dateSlashAt '/') none l with
    | some g => some g
    | none =>
      match searchWithPrev (dateSlashAt '-') none l with
      | some g => some g
      | none =>
        if containsL l "اليوم".toList then some ("اليوم".toList) else none

/- ===== scraper.py : fetch_and_extract_prices ===== -/

def has_making_charge (l : List Char) : Bool :=
  containsL l "مصنعية".toList || containsL l "بالمصنعية".toList ||
  containsL l "شاملة المصنعية".toList

structure PageStatus where
  url : String
  title : Option String
  ok : Bool
  error : Option String
deriving DecidableEq, Repr

structure PriceRecord where
  site : String
  title : String
  price : ℚ
  currency : String
  karat : Option Nat
  unit : String
  with_making : Bool
  published_hint : Option String
deriving DecidableEq, Repr

/- The best-snippet selection loop: best_pair, best_score, best_text,
   updated for every block with at least one match whose score strictly
   exceeds the best score so far. -/
def pickBestAux (acc : Option Cand × Int × List Char) :
    List (List Char) → Option Cand × Int × List Char
  | [] => acc
  | txt :: rest =>
    let score := score_snippet txt
    match heuristic_price_parse txt with
    | [] => pickBestAux acc rest
    | p :: _ =>
      if acc.2.1 < score then pickBestAux (some p, score, txt) rest
      else pickBestAux acc rest

def pickBest (blocks : List (List Char)) : Option Cand × Int × List Char :=
  pickBestAux (none, -1, []) blocks

def buildRecord (url title : String) (best : Cand) (bestText : List Char) :
    PriceRecord :=
  { site := url
    title := title
    price := best.1
    currency := String.mk best.2.1
    karat := best.2.2
    unit := "جرام"
    with_making := has_making_charge bestText
    published_hint := (maybe_find_date bestText).map String.mk }

/- fetch_and_extract_prices, parameterized by an oracle for the page
   fetch and HTML block extraction (the network and BeautifulSoup layer
   is outside the embedded subsystem): for each url the oracle yields
   either an error message or a title together with the candidate text
   blocks of §4.2; the pipeline translates Arabic-Indic digits in the
   blocks exactly as _extract_candidates does. -/
def fetch_and_extract_prices
    (fetch : String → Except String (String × List String)) :
    List String → List PageStatus × List PriceRecord
  | [] => ([], [])
  | url :: rest =>
    let tailOut := fetch_and_extract_prices fetch rest
    match fetch url with
    | .error e =>
      (⟨url, none, false, some e⟩ :: tailOut.1, tailOut.2)
    | .ok (title, texts) =>
      let cands := texts.map (fun t => toWesternDigits t.toList)
      let picked := pickBest cands
      match picked.1 with
      | none => (⟨url, some title, true, none⟩ :: tailOut.1, tailOut.2)
      | some best =>
        (⟨url, some title, true, none⟩ :: tailOut.1,
         buildRecord url title best picked.2.2 :: tailOut.2)

/- ===== Spec-side definitions ===== -/

/- The language of the _CURRENCY regex جنيه(\s*مصري)?|ج\.م|EGP as a
   full-string predicate: exactly the Egyptian-pound spellings of the
   claim (جنيه, جنيه followed by optional whitespace and مصري, ج.م, or
   EGP in any letter case). -/
def isEgpSpelling (l : List Char) : Bool :=
  decide (l = "جنيه".toList) ||
  (decide (l = "جنيه".toList ++ (l.drop 4).take (l.length - 8) ++ "مصري".toList)
    && ((l.drop 4).take (l.length - 8)).all isPyWs) ||
  decide (l = "ج.م".toList) ||
  decide (l.map asciiLower = "egp".toList)

/- The scoring rule exactly as the claim words it: a single +1 check
   for a general price keyword (Arabic سعر or the literal "price"
   case-insensitively). -/
def specScoreClaimed (l : List Char) : Int :=
  (if containsL l "جرام".toList then 2 else 0) +
  (if containsL l "عيار 21".toList || containsL l "عيار21".toList then 2 else 0) +
  (if containsL l "عيار 24".toList || containsL l "عيار24".toList then 1 else 0) +
  (if containsL l "سعر".toList ||
      containsL (l.map asciiLower) "price".toList then 1 else 0) +
  (if containsL l ['|'] || containsL l ['\t'] then 1 else 0)

/- The amended scoring rule: the Arabic سعر check and the literal
   case-insensitive "price" check are independent checks worth +1 each. -/
def specScoreAmended (l : List Char) : Int :=
  (if containsL l "جرام".toList then 2 else 0) +
  (if containsL l "عيار 21".toList || containsL l "عيار21".toList then 2 else 0) +
  (if containsL l "عيار 24".toList || containsL l "عيار24".toList then 1 else 0) +
  (if containsL l "سعر".toList then 1 else 0) +
  (if containsL (l.map asciiLower) "price".toList then 1 else 0) +
  (if containsL l ['|'] || containsL l ['\t'] then 1 else 0)

/- ===== General lemmas ===== -/

theorem containsL_iff {hay needle : List Char} :
    containsL hay needle = true ↔ needle <:+: hay := by
  unfold containsL
  rw [List.any_eq_true]
  constructor
  · rintro ⟨t, ht, hp⟩
    exact List.infix_iff_prefix_suffix.mpr
      ⟨t, List.isPrefixOf_iff_prefix.mp hp, (List.mem_tails _ _).mp ht⟩
  · intro h
    obtain ⟨t, hp, hs⟩ := List.infix_iff_prefix_suffix.mp h
    exact ⟨t, (List.mem_tails _ _).mpr hs, List.isPrefixOf_iff_prefix.mpr hp⟩

theorem containsL_trans {l b a : List Char} (h1 : containsL l b = true)
    (h2 : containsL b a = true) : containsL l a = true :=
  containsL_iff.mpr ((containsL_iff.mp h2).trans (containsL_iff.mp h1))

/- ===== C9: making-charge flag reduces to one substring test ===== -/

/-- C9: checking the three phrase variants مصنعية, بالمصنعية and
شاملة المصنعية is equivalent to checking مصنعية alone, since the other
two variants contain مصنعية as a substring; hence with_making is true
exactly when the winning snippet text contains مصنعية. -/
theorem c9_making_charge_equiv (l : List Char) :
    has_making_charge l = containsL l ("مصنعية".toList) := by
  unfold has_making_charge
  cases h1 : containsL l ("مصنعية".toList) with
  | true => simp [h1]
  | false =>
    have hin2 : containsL ("بالمصنعية".toList) ("مصنعية".toList) = true := by decide
    have hin3 : containsL ("شاملة المصنعية".toList) ("مصنعية".toList) = true := by
      decide
    have h2 : containsL l ("بالمصنعية".toList) = false := by
      cases h2 : containsL l ("بالمصنعية".toList) with
      | false => rfl
      | true =>
        exact absurd (containsL_trans h2 hin2)
          (fun hh => Bool.noConfusion (h1.symm.trans hh))
    have h3 : containsL l ("شاملة المصنعية".toList) = false := by
      cases h3 : containsL l ("شاملة المصنعية".toList) with
      | false => rfl
      | true =>
        exact absurd (containsL_trans h3 hin3)
          (fun hh => Bool.noConfusion (h1.symm.trans hh))
    rw [h2, h3]
    rfl

/- ===== C5: comma-only inputs of normalize_number ===== -/

/-- C5 (code behaviour at the claimed inputs): the code treats a lone
comma as a decimal separator, so normalize_number("٣,٥٠٠") = 3.5 and
normalize_number("EGP 4,250") = 4.25, contradicting the claimed 3500.0
and 4250.0 (which the function's own docstring promises). -/
theorem c5_code_behaviour :
    normalize_number_str "٣,٥٠٠" = some (3.5 : ℚ) ∧
    normalize_number_str "EGP 4,250" = some (4.25 : ℚ) ∧
    normalize_number_str "٣,٥٠٠" ≠ some (3500 : ℚ) ∧
    normalize_number_str "EGP 4,250" ≠ some (4250 : ℚ) := by
  have h1 : normalize_number_str "٣,٥٠٠" = some (mkRat 7 2) := by decide
  have h2 : normalize_number_str "EGP 4,250" = some (mkRat 17 4) := by decide
  refine ⟨?_, ?_, ?_, ?_⟩
  · rw [h1]; norm_num [Rat.mkRat_eq_div]
  · rw [h2]; norm_num [Rat.mkRat_eq_div]
  · rw [h1]; intro h; rw [Option.some.injEq] at h; revert h
    norm_num [Rat.mkRat_eq_div]
  · rw [h2]; intro h; rw [Option.some.injEq] at h; revert h
    norm_num [Rat.mkRat_eq_div]

/- ===== C7: remaining normalize_number test vectors ===== -/

/-- C7: normalize_number maps "3,500.75" to 3500.75, "12,5" to 12.5,
"٦٠٫٢" to 60.2, and "" and "abc" to no value. -/
theorem c7_normalize_vectors :
    normalize_number_str "3,500.75" = some (3500.75 : ℚ) ∧
    normalize_number_str "12,5" = some (12.5 : ℚ) ∧
    normalize_number_str "٦٠٫٢" = some (60.2 : ℚ) ∧
    normalize_number_str "" = none ∧
    normalize_number_str "abc" = none := by
  have h1 : normalize_number_str "3,500.75" = some (mkRat 14003 4) := by decide
  have h2 : normalize_number_str "12,5" = some (mkRat 25 2) := by decide
  have h3 : normalize_number_str "٦٠٫٢" = some (mkRat 301 5) := by decide
  refine ⟨?_, ?_, ?_, by decide, by decide⟩
  · rw [h1]; norm_num [Rat.mkRat_eq_div]
  · rw [h2]; norm_num [Rat.mkRat_eq_div]
  · rw [h3]; norm_num [Rat.mkRat_eq_div]

/- ===== C3: tier short-circuiting ===== -/

/-- C3: if tier 1 yields at least one candidate then
_heuristic_price_parse returns exactly the tier-1 candidates and tiers
2 and 3 are skipped; tier 2 is used only when tier 1 is empty, and the
gram-proximity tier 3 only when tiers 1 and 2 are both empty. -/
theorem c3_tier_short_circuit (text : List Char) :
    (tier1 text ≠ [] → heuristic_price_parse text = tier1 text) ∧
    (tier1 text = [] → tier2 text ≠ [] →
      heuristic_price_parse text = tier2 text) ∧
    (tier1 text = [] → tier2 text = [] →
      heuristic_price_parse text = tier3 text) := by
  refine ⟨fun h => ?_, fun h1 h2 => ?_, fun h1 h2 => ?_⟩
  · simp [heuristic_price_parse, h]
  · simp [heuristic_price_parse, h1, h2]
  · simp [heuristic_price_parse, h1, h2]

/-- C3 witness: a block containing both a karat-anchored match and a
currency-anchored match returns only the karat-anchored result. -/
theorem c3_witness :
    tier1 ("سعر الذهب عيار 21 اليوم 3700 جنيه".toList) ≠ [] ∧
    findPC ("سعر الذهب عيار 21 اليوم 3700 جنيه".toList) ≠ [] ∧
    heuristic_price_parse ("سعر الذهب عيار 21 اليوم 3700 جنيه".toList) =
      tier1 ("سعر الذهب عيار 21 اليوم 3700 جنيه".toList) :=
  ⟨by decide, by decide,
    (c3_tier_short_circuit ("سعر الذهب عيار 21 اليوم 3700 جنيه".toList)).1
      (by decide)⟩

/- ===== C6: snippet scoring rule ===== -/

/-- C6 counterexample: a block containing both سعر and "price" scores 2
in the code (the two checks are independent) but 1 under the claim's
single combined price-keyword check. -/
theorem c6_counterexample :
    score_snippet ("سعر price".toList) = 2 ∧
    specScoreClaimed ("سعر price".toList) = 1 ∧
    score_snippet ("سعر price".toList) ≠ specScoreClaimed ("سعر price".toList) := by
  refine ⟨by decide, by decide, by decide⟩

/-- C6 amended: the score is the sum of independent checks, +2 for the
gram keyword, +2 for a karat-21 mention, +1 for a karat-24 mention,
+1 for Arabic سعر, a further +1 for the literal "price"
case-insensitively, and +1 for a pipe or tab; in particular a block
with the gram and karat-21 keywords scores 4 while a block with only
the Arabic price keyword scores 1. -/
theorem c6_amended :
    (∀ l : List Char, score_snippet l = specScoreAmended l) ∧
    score_snippet ("جرام عيار 21".toList) = 4 ∧
    score_snippet ("سعر".toList) = 1 := by
  refine ⟨fun l => ?_, by decide, by decide⟩
  simp only [score_snippet, specScoreAmended]
  split_ifs <;> omega

/- ===== Candidate membership lemmas ===== -/

theorem yearGuard_eq_some {mk : ℚ → Cand} {x : Option ℚ} {c : Cand}
    (h : yearGuard mk x = some c) :
    ∃ q, x = some q ∧ looks_like_year q = false ∧ c = mk q := by
  cases x with
  | none => cases h
  | some q =>
    rw [show yearGuard mk (some q)
        = if looks_like_year q then none else some (mk q) from rfl] at h
    by_cases hy : looks_like_year q = true
    · rw [if_pos hy] at h; cases h
    · rw [if_neg hy] at h
      exact ⟨q, rfl, by simpa using hy,
        ((Option.some.injEq _ _).mp h).symm⟩

theorem tier1_mem {text : List Char} {c : Cand} (h : c ∈ tier1 text) :
    looks_like_year c.1 = false ∧ c.2.1 = "جنيه".toList := by
  unfold tier1 at h
  rcases List.mem_append.mp h with h | h <;>
  · obtain ⟨m, _, hf⟩ := List.mem_filterMap.mp h
    obtain ⟨q, _, hy, hc⟩ := yearGuard_eq_some hf
    subst hc
    exact ⟨hy, rfl⟩

theorem tier2_mem {text : List Char} {c : Cand} (h : c ∈ tier2 text) :
    looks_like_year c.1 = false ∧ ∃ m ∈ findPC text, c.2.1 = m.2 := by
  unfold tier2 at h
  obtain ⟨m, hm, hf⟩ := List.mem_filterMap.mp h
  cases hctx : has_gold_context text with
  | false => rw [hctx] at hf; cases hf
  | true =>
    rw [hctx] at hf
    simp only [Bool.not_true, Bool.false_eq_true, if_false] at hf
    obtain ⟨q, _, hy, hc⟩ := yearGuard_eq_some hf
    subst hc
    exact ⟨hy, m, hm, rfl⟩

theorem tier3_mem {text : List Char} {c : Cand} (h : c ∈ tier3 text) :
    looks_like_year c.1 = false ∧ c.2.1 = "جنيه".toList := by
  unfold tier3 at h
  obtain ⟨m, _, hf⟩ := List.mem_filterMap.mp h
  obtain ⟨q, _, hy, hc⟩ := yearGuard_eq_some hf
  subst hc
  exact ⟨hy, rfl⟩

theorem parse_mem {text : List Char} {c : Cand}
    (h : c ∈ heuristic_price_parse text) :
    c ∈ tier1 text ∨ c ∈ tier2 text ∨ c ∈ tier3 text := by
  simp only [heuristic_price_parse] at h
  by_cases h1 : tier1 text = []
  · rw [if_pos h1] at h
    by_cases h2 : tier2 text = []
    · rw [if_pos h2] at h; exact Or.inr (Or.inr h)
    · rw [if_neg h2] at h; exact Or.inr (Or.inl h)
  · rw [if_neg h1] at h; exact Or.inl h

/- ===== C2: year rejection invariant ===== -/

/-- C2: in every tier of _heuristic_price_parse, and hence in its
result, no candidate carries a price equal to an integer in
[1900, 2100]: every appended candidate passes the _looks_like_year
guard. -/
theorem c2_year_rejection (text : List Char) (c : Cand)
    (hc : c ∈ tier1 text ∨ c ∈ tier2 text ∨ c ∈ tier3 text ∨
          c ∈ heuristic_price_parse text)
    (n : ℤ) (hn1 : 1900 ≤ n) (hn2 : n ≤ 2100) : c.1 ≠ (n : ℚ) := by
  have hy : looks_like_year c.1 = false := by
    rcases hc with h | h | h | h
    · exact (tier1_mem h).1
    · exact (tier2_mem h).1
    · exact (tier3_mem h).1
    · rcases parse_mem h with h | h | h
      · exact (tier1_mem h).1
      · exact (tier2_mem h).1
      · exact (tier3_mem h).1
  intro he
  rw [he] at hy
  unfold looks_like_year at hy
  have e1 : (1900 : ℚ) ≤ (n : ℚ) := by exact_mod_cast hn1
  have e2 : ((n : ℤ) : ℚ) ≤ 2100 := by exact_mod_cast hn2
  have e3 : ((n : ℤ) : ℚ).den = 1 := Rat.den_intCast n
  rw [decide_eq_true e1, decide_eq_true e2, e3] at hy
  simp at hy

/-- C2 witness: the karat-anchored candidate extracted from a concrete
block has price 3700, which is not the year-like 2000. -/
theorem c2_witness :
    ((3700 : ℚ), "جنيه".toList, (some 21 : Option Nat)) ∈
      heuristic_price_parse ("سعر جرام الذهب عيار 21 اليوم 3700 جنيه".toList) ∧
    ((3700 : ℚ), "جنيه".toList, (some 21 : Option Nat)).1 ≠ ((2000 : ℤ) : ℚ) :=
  ⟨by decide,
    c2_year_rejection ("سعر جرام الذهب عيار 21 اليوم 3700 جنيه".toList)
      ((3700 : ℚ), "جنيه".toList, (some 21 : Option Nat))
      (Or.inr (Or.inr (Or.inr (by decide)))) 2000 (by decide) (by decide)⟩

/- ===== Currency spelling lemmas (towards C10) ===== -/

theorem dropWhile_ws_append {sep mt : List Char} (hsep : sep.all isPyWs = true) :
    (sep ++ mt).dropWhile isPyWs = mt.dropWhile isPyWs := by
  induction sep with
  | nil => rfl
  | cons c s ih =>
    rw [List.all_cons, Bool.and_eq_true] at hsep
    rw [List.cons_append, List.dropWhile_cons, if_pos hsep.1]
    exact ih hsep.2

theorem pythonStrip_ws_append {sep mt : List Char} (hsep : sep.all isPyWs = true)
    (h1 : mt.dropWhile isPyWs = mt)
    (h2 : mt.reverse.dropWhile isPyWs = mt.reverse) :
    pythonStrip (sep ++ mt) = mt := by
  unfold pythonStrip
  rw [dropWhile_ws_append hsep, h1, h2, List.reverse_reverse]

theorem dropWhile_cons_of_neg {p : Char → Bool} {a : Char} {l : List Char}
    (h : p a = false) : (a :: l).dropWhile p = a :: l := by
  rw [List.dropWhile_cons, if_neg (by simp [h])]

theorem ws_asciiLower_fixed {c : Char} (h : isPyWs c = true) :
    asciiLower c = c := by
  unfold isPyWs at h
  simp only [Bool.or_eq_true, decide_eq_true_eq] at h
  rcases h with ((((((rfl | rfl) | rfl) | rfl) | rfl) | rfl) | rfl) <;> decide

theorem lower_target_not_ws {c x : Char} (hx : isPyWs x = false)
    (h : asciiLower c = x) : isPyWs c = false := by
  cases hws : isPyWs c with
  | false => rfl
  | true =>
    rw [ws_asciiLower_fixed hws] at h
    subst h
    rw [hws] at hx
    cases hx

theorem currencyAt_spelling {q mt rem sep : List Char}
    (h : currencyAt q = some (mt, rem)) (hsep : sep.all isPyWs = true) :
    isEgpSpelling (pythonStrip (sep ++ mt)) = true := by
  unfold currencyAt at h
  by_cases hbr1 : ("جنيه".toList).isPrefixOf q = true
  · rw [if_pos hbr1] at h
    by_cases hbr2 : ("مصري".toList).isPrefixOf
        ((q.drop 4).drop ((q.drop 4).takeWhile isPyWs).length) = true
    · rw [if_pos hbr2] at h
      rw [Option.some.injEq, Prod.mk.injEq] at h
      obtain ⟨hmt, _⟩ := h
      subst hmt
      set w := (q.drop 4).takeWhile isPyWs with hw
      have hwall : w.all isPyWs = true :=
        List.all_eq_true.mpr (fun x hx => List.mem_takeWhile_imp hx)
      have hcons : "جنيه".toList ++ w ++ "مصري".toList
          = 'ج' :: (['ن', 'ي', 'ه'] ++ w ++ "مصري".toList) := rfl
      have h1 : ("جنيه".toList ++ w ++ "مصري".toList).dropWhile isPyWs
          = "جنيه".toList ++ w ++ "مصري".toList := by
        rw [hcons]
        exact dropWhile_cons_of_neg (by decide)
      have hrev : ("جنيه".toList ++ w ++ "مصري".toList).reverse
          = 'ي' :: (['ر', 'ص', 'م'] ++ (w.reverse ++ ['ه', 'ي', 'ن', 'ج'])) := by
        rw [List.reverse_append, List.reverse_append]
        rfl
      have h2 : ("جنيه".toList ++ w ++ "مصري".toList).reverse.dropWhile isPyWs
          = ("جنيه".toList ++ w ++ "مصري".toList).reverse := by
        rw [hrev]
        exact dropWhile_cons_of_neg (by decide)
      rw [pythonStrip_ws_append hsep h1 h2]
      have hmid : ((("جنيه".toList ++ w ++ "مصري".toList).drop 4).take
          (("جنيه".toList ++ w ++ "مصري".toList).length - 8)) = w := by
        have hd : ("جنيه".toList ++ w ++ "مصري".toList).drop 4
            = w ++ "مصري".toList := by
          rw [List.append_assoc]
          exact List.drop_left' (by decide)
        have hl : ("جنيه".toList ++ w ++ "مصري".toList).length - 8
            = w.length := by
          simp [List.length_append]
        rw [hd, hl, List.take_left]
      rw [isEgpSpelling, hmid]
      rw [decide_eq_true (show "جنيه".toList ++ w ++ "مصري".toList
          = "جنيه".toList ++ w ++ "مصري".toList from rfl), hwall]
      simp
    · rw [if_neg hbr2] at h
      rw [Option.some.injEq, Prod.mk.injEq] at h
      obtain ⟨hmt, _⟩ := h
      subst hmt
      rw [pythonStrip_ws_append hsep (by decide) (by decide)]
      decide
  · rw [if_neg hbr1] at h
    by_cases hbr3 : ("ج.م".toList).isPrefixOf q = true
    · rw [if_pos hbr3] at h
      rw [Option.some.injEq, Prod.mk.injEq] at h
      obtain ⟨hmt, _⟩ := h
      subst hmt
      rw [pythonStrip_ws_append hsep (by decide) (by decide)]
      decide
    · rw [if_neg hbr3] at h
      rcases q with _ | ⟨c1, _ | ⟨c2, _ | ⟨c3, r⟩⟩⟩
      · cases h
      · cases h
      · cases h
      · have h' : (if (asciiLower c1 = 'e' && asciiLower c2 = 'g' &&
            asciiLower c3 = 'p') then some (([c1, c2, c3] : List Char), r)
            else none) = some (mt, rem) := h
        by_cases hegp : (asciiLower c1 = 'e' && asciiLower c2 = 'g' &&
            asciiLower c3 = 'p') = true
        · rw [if_pos hegp] at h'
          rw [Option.some.injEq, Prod.mk.injEq] at h'
          obtain ⟨hmt, _⟩ := h'
          subst hmt
          simp only [Bool.and_eq_true, decide_eq_true_eq] at hegp
          obtain ⟨⟨he1, he2⟩, he3⟩ := hegp
          have hc1 : isPyWs c1 = false := lower_target_not_ws (by decide) he1
          have hc3 : isPyWs c3 = false := lower_target_not_ws (by decide) he3
          have h1 : ([c1, c2, c3] : List Char).dropWhile isPyWs
              = [c1, c2, c3] := dropWhile_cons_of_neg hc1
          have h2 : ([c1, c2, c3] : List Char).reverse.dropWhile isPyWs
              = ([c1, c2, c3] : List Char).reverse := by
            rw [show ([c1, c2, c3] : List Char).reverse = [c3, c2, c1] from rfl]
            exact dropWhile_cons_of_neg hc3
          rw [pythonStrip_ws_append hsep h1 h2]
          have hmap : ([c1, c2, c3] : List Char).map asciiLower
              = "egp".toList := by
            simp only [List.map_cons, List.map_nil, he1, he2, he3]
            rfl
          rw [isEgpSpelling, decide_eq_true hmap]
          simp
        · rw [if_neg hegp] at h'
          cases h'

theorem scanWith_mem {α : Type} {matchAt : List Char → Option (α × List Char)}
    {P : α → Prop} (hP : ∀ l a r, matchAt l = some (a, r) → P a) :
    ∀ (fuel : Nat) (l : List Char) (a : α), a ∈ scanWith matchAt fuel l → P a := by
  intro fuel
  induction fuel with
  | zero => intro l a h; simp [scanWith] at h
  | succ f ih =>
    intro l a h
    cases l with
    | nil => simp [scanWith] at h
    | cons c rest =>
      rw [scanWith] at h
      rcases hq : matchAt (c :: rest) with _ | ⟨m, rem⟩
      · rw [hq] at h
        exact ih rest a h
      · rw [hq] at h
        rcases List.mem_cons.mp h with rfl | h
        · exact hP _ _ _ hq
        · exact ih rem a h

theorem pcAttempt_spelling {d : Char} {rest : List Char} {t : Nat}
    {m : List Char × List Char} {r : List Char}
    (h : pcAttempt d rest t = some (m, r)) : isEgpSpelling m.2 = true := by
  simp only [pcAttempt] at h
  rcases hq : currencyAt ((rest.drop t).drop
      ((rest.drop t).takeWhile isPyWs).length) with _ | ⟨mt, rem⟩
  · rw [hq] at h; cases h
  · rw [hq] at h
    rw [Option.some.injEq, Prod.mk.injEq] at h
    obtain ⟨hm, _⟩ := h
    rw [← hm]
    exact currencyAt_spelling hq
      (List.all_eq_true.mpr (fun x hx => List.mem_takeWhile_imp hx))

theorem pcTryT_spelling {d : Char} {rest : List Char}
    {m : List Char × List Char} {r : List Char} :
    ∀ t, pcTryT d rest t = some (m, r) → isEgpSpelling m.2 = true := by
  intro t
  induction t with
  | zero =>
    intro h
    exact pcAttempt_spelling h
  | succ t ih =>
    intro h
    rw [pcTryT] at h
    rcases hq : pcAttempt d rest (t + 1) with _ | x
    · rw [hq] at h
      exact ih h
    · rw [hq] at h
      rw [Option.some.injEq] at h
      subst h
      exact pcAttempt_spelling hq

theorem pcMatchAt_spelling {l : List Char} {m : List Char × List Char}
    {r : List Char} (h : pcMatchAt l = some (m, r)) :
    isEgpSpelling m.2 = true := by
  cases l with
  | nil => cases h
  | cons d rest =>
    rw [pcMatchAt] at h
    by_cases hd : isDigitB d = true
    · rw [if_pos hd] at h
      exact pcTryT_spelling _ h
    · rw [if_neg hd] at h
      cases h

theorem findPC_spelling {text : List Char} {m : List Char × List Char}
    (h : m ∈ findPC text) : isEgpSpelling m.2 = true :=
  scanWith_mem (fun _ _ _ hq => pcMatchAt_spelling hq) text.length text m h

/- ===== C10: currency invariant ===== -/

/-- C10: every candidate of _heuristic_price_parse carries an
Egyptian-pound currency label: the literal جنيه in tiers 1 and 3, and
in tier 2 exactly the spelling matched by the _CURRENCY pattern
(جنيه, جنيه with optional whitespace and مصري, ج.م, or case-insensitive
EGP). -/
theorem c10_currency_invariant (text : List Char) (c : Cand) :
    (c ∈ tier1 text → c.2.1 = "جنيه".toList) ∧
    (c ∈ tier3 text → c.2.1 = "جنيه".toList) ∧
    (c ∈ tier2 text →
      ∃ m ∈ findPC text, c.2.1 = m.2 ∧ isEgpSpelling m.2 = true) ∧
    (c ∈ heuristic_price_parse text → isEgpSpelling c.2.1 = true) := by
  refine ⟨fun h => (tier1_mem h).2, fun h => (tier3_mem h).2, fun h => ?_,
    fun h => ?_⟩
  · obtain ⟨_, m, hm, hc⟩ := tier2_mem h
    exact ⟨m, hm, hc, findPC_spelling hm⟩
  · rcases parse_mem h with h | h | h
    · rw [(tier1_mem h).2]; decide
    · obtain ⟨_, m, hm, hc⟩ := tier2_mem h
      rw [hc]
      exact findPC_spelling hm
    · rw [(tier3_mem h).2]; decide

/-- C10 witness: on a block matched by the currency-anchored tier, the
extracted candidate's currency is the matched EGP spelling. -/
theorem c10_witness :
    isEgpSpelling ((3450 : ℚ), ['E', 'G', 'P'],
        (none : Option Nat)).2.1 = true :=
  (c10_currency_invariant ("الذهب 3450 EGP".toList)
    ((3450 : ℚ), ['E', 'G', 'P'], (none : Option Nat))).2.2.2 (by decide)

/- ===== C4: snippet selection with strict tie-break ===== -/

theorem pickBestAux_spec (blocks : List (List Char)) :
    ∀ (accC : Option Cand) (accS : Int) (accT : List Char),
    (∀ b ∈ blocks, heuristic_price_parse b ≠ [] →
        score_snippet b ≤ (pickBestAux (accC, accS, accT) blocks).2.1) ∧
    accS ≤ (pickBestAux (accC, accS, accT) blocks).2.1 ∧
    (pickBestAux (accC, accS, accT) blocks = (accC, accS, accT) ∨
      ∃ l1 l2,
        blocks = l1 ++ (pickBestAux (accC, accS, accT) blocks).2.2 :: l2 ∧
        heuristic_price_parse (pickBestAux (accC, accS, accT) blocks).2.2 ≠ [] ∧
        (pickBestAux (accC, accS, accT) blocks).1 =
          (heuristic_price_parse (pickBestAux (accC, accS, accT) blocks).2.2).head? ∧
        (pickBestAux (accC, accS, accT) blocks).2.1 =
          score_snippet (pickBestAux (accC, accS, accT) blocks).2.2 ∧
        accS < (pickBestAux (accC, accS, accT) blocks).2.1 ∧
        ∀ b ∈ l1, heuristic_price_parse b ≠ [] →
          score_snippet b < (pickBestAux (accC, accS, accT) blocks).2.1) := by
  induction blocks with
  | nil =>
    intro accC accS accT
    exact ⟨by simp, le_refl _, Or.inl rfl⟩
  | cons t rest ih =>
    intro accC accS accT
    rcases hp : heuristic_price_parse t with _ | ⟨p, ps⟩
    · have hred : pickBestAux (accC, accS, accT) (t :: rest)
          = pickBestAux (accC, accS, accT) rest := by
        simp [pickBestAux, hp]
      obtain ⟨ihA, ihB, ihC⟩ := ih accC accS accT
      rw [hred]
      refine ⟨?_, ihB, ?_⟩
      · intro b hb hbp
        rcases List.mem_cons.mp hb with rfl | hb
        · exact absurd hp hbp
        · exact ihA b hb hbp
      · rcases ihC with hEq | ⟨l1, l2, hdec, hne, hhead, hsc, hacc, hstrict⟩
        · exact Or.inl hEq
        · refine Or.inr ⟨t :: l1, l2, ?_, hne, hhead, hsc, hacc, ?_⟩
          · rw [List.cons_append, ← hdec]
          · intro b hb hbp
            rcases List.mem_cons.mp hb with rfl | hb
            · exact absurd hp hbp
            · exact hstrict b hb hbp
    · by_cases hs : accS < score_snippet t
      · have hred : pickBestAux (accC, accS, accT) (t :: rest)
            = pickBestAux (some p, score_snippet t, t) rest := by
          simp [pickBestAux, hp, hs]
        obtain ⟨ihA, ihB, ihC⟩ := ih (some p) (score_snippet t) t
        rw [hred]
        refine ⟨?_, le_of_lt (lt_of_lt_of_le hs ihB), ?_⟩
        · intro b hb hbp
          rcases List.mem_cons.mp hb with rfl | hb
          · exact ihB
          · exact ihA b hb hbp
        · rcases ihC with hEq | ⟨l1, l2, hdec, hne, hhead, hsc, hacc, hstrict⟩
          · refine Or.inr ⟨[], rest, ?_, ?_, ?_, ?_, ?_, ?_⟩
            · rw [hEq]; rfl
            · rw [hEq]; simp [hp]
            · rw [hEq, hp]; rfl
            · rw [hEq]
            · rw [hEq]; exact hs
            · intro b hb; cases hb
          · refine Or.inr ⟨t :: l1, l2, ?_, hne, hhead, hsc, lt_trans hs hacc, ?_⟩
            · rw [List.cons_append, ← hdec]
            · intro b hb hbp
              rcases List.mem_cons.mp hb with rfl | hb
              · exact hacc
              · exact hstrict b hb hbp
      · have hred : pickBestAux (accC, accS, accT) (t :: rest)
            = pickBestAux (accC, accS, accT) rest := by
          simp [pickBestAux, hp, hs]
        obtain ⟨ihA, ihB, ihC⟩ := ih accC accS accT
        rw [hred]
        refine ⟨?_, ihB, ?_⟩
        · intro b hb hbp
          rcases List.mem_cons.mp hb with rfl | hb
          · exact le_trans (not_lt.mp hs) ihB
          · exact ihA b hb hbp
        · rcases ihC with hEq | ⟨l1, l2, hdec, hne, hhead, hsc, hacc, hstrict⟩
          · exact Or.inl hEq
          · refine Or.inr ⟨t :: l1, l2, ?_, hne, hhead, hsc, hacc, ?_⟩
            · rw [List.cons_append, ← hdec]
            · intro b hb hbp
              rcases List.mem_cons.mp hb with rfl | hb
              · exact lt_of_le_of_lt (not_lt.mp hs) hacc
              · exact hstrict b hb hbp

/-- C4: when the selection loop yields a best pair, the winning snippet
is the earliest block (in extraction order) that matches and attains
the maximum score among matching blocks — every matching block scores
at most the winner's score and every earlier matching block scores
strictly less, because the comparison score > best_score is strict —
and the pair is the block's first candidate tuple. -/
theorem c4_snippet_selection (blocks : List (List Char)) (p : Cand) (sc : Int)
    (tx : List Char) (h : pickBest blocks = (some p, sc, tx)) :
    ∃ l1 l2, blocks = l1 ++ tx :: l2 ∧
      heuristic_price_parse tx ≠ [] ∧
      (heuristic_price_parse tx).head? = some p ∧
      sc = score_snippet tx ∧
      (∀ b ∈ blocks, heuristic_price_parse b ≠ [] → score_snippet b ≤ sc) ∧
      (∀ b ∈ l1, heuristic_price_parse b ≠ [] → score_snippet b < sc) := by
  obtain ⟨hA, _, hC⟩ := pickBestAux_spec blocks none (-1) []
  rw [pickBest] at h
  rw [h] at hA hC
  rcases hC with hEq | ⟨l1, l2, hdec, hne, hhead, hsc, _, hstrict⟩
  · simp at hEq
  · exact ⟨l1, l2, hdec, hne, hhead.symm, hsc, hA, hstrict⟩

/-- C4 witness: two matching blocks with equal score 2 — the
first-seen block wins the tie and supplies its first candidate. -/
theorem c4_witness :
    ∃ l1 l2,
      [("عيار 21 : 3000 جنيه".toList), ("عيار 21 : 3100 جنيه".toList)]
        = l1 ++ ("عيار 21 : 3000 جنيه".toList) :: l2 ∧
      heuristic_price_parse ("عيار 21 : 3000 جنيه".toList) ≠ [] ∧
      (heuristic_price_parse ("عيار 21 : 3000 جنيه".toList)).head?
        = some ((3000 : ℚ), "جنيه".toList, some 21) ∧
      (2 : Int) = score_snippet ("عيار 21 : 3000 جنيه".toList) ∧
      (∀ b ∈ [("عيار 21 : 3000 جنيه".toList), ("عيار 21 : 3100 جنيه".toList)],
        heuristic_price_parse b ≠ [] → score_snippet b ≤ (2 : Int)) ∧
      (∀ b ∈ l1, heuristic_price_parse b ≠ [] → score_snippet b < (2 : Int)) :=
  c4_snippet_selection
    [("عيار 21 : 3000 جنيه".toList), ("عيار 21 : 3100 جنيه".toList)]
    ((3000 : ℚ), "جنيه".toList, some 21) 2 ("عيار 21 : 3000 جنيه".toList)
    (by decide)

/- ===== C8: per-page error isolation ===== -/

theorem fetch_lengths (fetch : String → Except String (String × List String))
    (links : List String) :
    (fetch_and_extract_prices fetch links).1.length = links.length ∧
    (fetch_and_extract_prices fetch links).2.length ≤ links.length := by
  induction links with
  | nil => exact ⟨rfl, le_refl 0⟩
  | cons u rest ih =>
    rcases hf : fetch u with e | ok
    · have hred : fetch_and_extract_prices fetch (u :: rest)
          = (⟨u, none, false, some e⟩ ::
              (fetch_and_extract_prices fetch rest).1,
             (fetch_and_extract_prices fetch rest).2) := by
        simp [fetch_and_extract_prices, hf]
      rw [hred]
      exact ⟨by simp [ih.1], le_trans ih.2 (Nat.le_succ _)⟩
    · rcases hbp : (pickBest (ok.2.map (fun t => toWesternDigits t.toList))).1
        with _ | best
      · have hred : fetch_and_extract_prices fetch (u :: rest)
            = (⟨u, some ok.1, true, none⟩ ::
                (fetch_and_extract_prices fetch rest).1,
               (fetch_and_extract_prices fetch rest).2) := by
          simp only [fetch_and_extract_prices, hf]
          rw [hbp]
        rw [hred]
        exact ⟨by simp [ih.1], le_trans ih.2 (Nat.le_succ _)⟩
      · have hred : fetch_and_extract_prices fetch (u :: rest)
            = (⟨u, some ok.1, true, none⟩ ::
                (fetch_and_extract_prices fetch rest).1,
               buildRecord u ok.1 best
                   (pickBest (ok.2.map (fun t => toWesternDigits t.toList))).2.2 ::
                 (fetch_and_extract_prices fetch rest).2) := by
          simp only [fetch_and_extract_prices, hf]
          rw [hbp]
        rw [hred]
        exact ⟨by simp [ih.1], by simpa using Nat.succ_le_succ ih.2⟩

/-- C8: every input URL yields exactly one status record and at most
one PriceRecord; a URL whose fetch fails with message e is recorded as
\x7burl, ok: false, error: e\x7d and the remaining pages' outputs are
unchanged; a URL fetched successfully whose blocks yield no match is
recorded with ok=true and contributes no PriceRecord. -/
theorem c8_error_isolation
    (fetch : String → Except String (String × List String))
    (links : List String) (url : String) :
    (fetch_and_extract_prices fetch links).1.length = links.length ∧
    (fetch_and_extract_prices fetch links).2.length ≤ links.length ∧
    (∀ e, fetch url = Except.error e →
      fetch_and_extract_prices fetch (url :: links)
        = (⟨url, none, false, some e⟩ ::
            (fetch_and_extract_prices fetch links).1,
           (fetch_and_extract_prices fetch links).2)) ∧
    (∀ title texts, fetch url = Except.ok (title, texts) →
      (pickBest (texts.map (fun t => toWesternDigits t.toList))).1 = none →
      fetch_and_extract_prices fetch (url :: links)
        = (⟨url, some title, true, none⟩ ::
            (fetch_and_extract_prices fetch links).1,
           (fetch_and_extract_prices fetch links).2)) := by
  refine ⟨(fetch_lengths fetch links).1, (fetch_lengths fetch links).2,
    fun e he => ?_, fun title texts hok hnone => ?_⟩
  · simp [fetch_and_extract_prices, he]
  · simp only [fetch_and_extract_prices, hok]
    rw [hnone]

/-- C8 witness: a failing URL is recorded as an error status and yields
no PriceRecord. -/
theorem c8_witness :
    fetch_and_extract_prices
      (fun u => if u = "bad" then Except.error "boom"
                else Except.ok ("t", ["الذهب"])) ["bad"]
      = ([⟨"bad", none, false, some "boom"⟩], []) := by
  have h := (c8_error_isolation
    (fun u => if u = "bad" then Except.error "boom"
              else Except.ok ("t", ["الذهب"])) [] "bad").2.2.1 "boom" (by simp)
  simpa using h

/- ===== C1: end-to-end extraction ===== -/

/-- C1 counterexample: the single record produced for the page whose
only block is "سعر جرام الذهب عيار 21 اليوم 3700 جنيه" does not carry
the literal unit "gram" the claim states — its unit field is the
Arabic جرام. -/
theorem c1_counterexample :
    (fetch_and_extract_prices
      (fun _ => Except.ok ("t", ["سعر جرام الذهب عيار 21 اليوم 3700 جنيه"]))
      ["site"]).2 =
      [{ site := "site", title := "t", price := 3700, currency := "جنيه",
         karat := some 21, unit := "جرام", with_making := false,
         published_hint := some "اليوم" }] ∧
    ({ site := "site", title := "t", price := 3700, currency := "جنيه",
       karat := some 21, unit := "جرام", with_making := false,
       published_hint := some "اليوم"} : PriceRecord).unit ≠ "gram" :=
  ⟨by decide, by decide⟩

/-- C1 amended: the pipeline produces exactly one PriceRecord with
price 3700, karat 21, currency جنيه (the Egyptian pound), unit جرام
(the Arabic word for gram), published_hint اليوم and
with_making_charge false for the first page; for the page whose only
block is "عيار 21: 3850 جنيه شاملة المصنعية" the record has
with_making_charge true. -/
theorem c1_amended :
    (fetch_and_extract_prices
      (fun _ => Except.ok ("t", ["سعر جرام الذهب عيار 21 اليوم 3700 جنيه"]))
      ["site"]).2 =
      [{ site := "site", title := "t", price := 3700, currency := "جنيه",
         karat := some 21, unit := "جرام", with_making := false,
         published_hint := some "اليوم" }] ∧
    (fetch_and_extract_prices
      (fun _ => Except.ok ("t", ["عيار 21: 3850 جنيه شاملة المصنعية"]))
      ["site"]).2 =
      [{ site := "site", title := "t", price := 3850, currency := "جنيه",
         karat := some 21, unit := "جرام", with_making := true,
         published_hint := none }] :=
  ⟨by decide, by decide⟩

end GoldEgypt
